import Mathlib

/-!
Verification of the `timely-pass` SDK core (crates `timely-pass-sdk`):
a shallow embedding of the policy evaluation engine (`src/eval.rs`,
`src/policy.rs`), the crypto layer (`src/crypto.rs`), and the encrypted
secret store (`src/store.rs`), together with theorems settling the spec's
claims about them.

Modelling conventions:
* Rust `Vec<u8>` byte buffers are `List Nat` (each entry a byte value).
* `chrono::DateTime<Utc>` timestamps are `Int` (a point on the UTC time
  line; chrono's comparison and `+ Duration::seconds` arithmetic map to
  integer comparison and addition).  The panics chrono raises at the far
  ends of its representable range are not modelled; theorems that depend
  on duration arithmetic restrict to the non-panicking regime.
* `HashMap<String, V>` is an association list `List (String × V)` with
  HashMap-style insert/lookup/remove/modify operations.
* External crates (argon2, chacha20poly1305, bincode) are modelled as
  explicit function parameters bundled in `Externals`; theorems assume
  exactly the documented contracts of those crates (KDF determinism,
  AEAD decrypt-of-encrypt, serialize/deserialize round-trip) at the
  points where the store invokes them.
* The filesystem is a map from path to file bytes; `tempfile` +
  `persist` is modelled as an atomic replacement of the bytes at a path.
-/

namespace TimelyPass

/-- Byte strings (`Vec<u8>`): a list of byte values. -/
abbrev Bytes := List Nat

/-! ### Data model (`src/policy.rs`, `src/eval.rs`, `src/error.rs`) -/

/-- `Period` from `src/policy.rs`. -/
inductive Period where
  | Instant (value : Int)
  | Range (start stop : Int)
  | Duration (seconds : Nat)
deriving DecidableEq, Repr

/-- `Hook` from `src/policy.rs`.  `durationSecs` is a `u64`. -/
inductive Hook where
  | OnlyBefore (period : Period)
  | OnlyAfter (period : Period)
  | OnlyWithin (period : Period)
  | OnlyFor (durationSecs : Nat)
deriving DecidableEq, Repr

/-- `Policy` from `src/policy.rs` (`max_attempts` is a `u32`). -/
structure Policy where
  id : String
  hooks : List Hook
  timezone : Option String
  clockSkewSecs : Nat
  maxAttempts : Option Nat
  singleUse : Bool
  version : Nat
deriving DecidableEq, Repr

/-- `Verdict` from `src/eval.rs`. -/
inductive Verdict where
  | Accept
  | Reject
  | Expired
  | NotYetValid
  | PolicyViolation (reason : String)
deriving DecidableEq, Repr

/-- `EvaluationContext` from `src/eval.rs` (`usage_count` is a `u64`). -/
structure EvaluationContext where
  now : Int
  createdAt : Option Int
  lastUsedAt : Option Int
  usageCount : Nat
deriving DecidableEq, Repr

/-- `HashMap::insert` on an association list: replace the value of an
existing key, otherwise append the new binding. -/
def mapInsert {α : Type} (m : List (String × α)) (k : String) (v : α) :
    List (String × α) :=
  if m.any (fun p => decide (p.1 = k)) then
    m.map (fun p => if p.1 = k then (k, v) else p)
  else
    m ++ [(k, v)]

/-- `HashMap::get` on an association list. -/
def alistGet {α : Type} (m : List (String × α)) (k : String) : Option α :=
  (m.find? (fun p => decide (p.1 = k))).map (fun p => p.2)

/-- `HashMap::remove` on an association list (dropping the binding). -/
def alistRemove {α : Type} (m : List (String × α)) (k : String) :
    List (String × α) :=
  m.filter (fun p => decide (p.1 ≠ k))

/-- `HashMap::get_mut` followed by an in-place update: apply `f` to the
value bound to `k`, leaving every other binding unchanged. -/
def alistModify {α : Type} (m : List (String × α)) (k : String) (f : α → α) :
    List (String × α) :=
  m.map (fun p => if p.1 = k then (k, f p.2) else p)

/-- `PolicyEvaluation` from `src/eval.rs`; `details` is a
`HashMap<String, String>`. -/
structure PolicyEvaluation where
  verdict : Verdict
  matchedHooks : List Nat
  details : List (String × String)
deriving DecidableEq, Repr

/-- The `u64 as i64` cast used by `Hook::OnlyFor` evaluation
(`*duration_secs as i64` in `src/eval.rs`): two's-complement wrap. -/
def i64OfU64 (d : Nat) : Int :=
  if d < 9223372036854775808 then (d : Int) else (d : Int) - 18446744073709551616

/-- Whether one hook lets the context through — the `passed` match of
`Policy::evaluate` (`src/eval.rs` lines 72-95).  A `Period` shape a hook
does not understand fails; `OnlyFor` without a creation anchor fails
closed. -/
def hookPasses (ctx : EvaluationContext) : Hook → Bool
  | .OnlyBefore p =>
    match p with
    | .Instant v => decide (ctx.now < v)
    | _ => false
  | .OnlyAfter p =>
    match p with
    | .Instant v => decide (v < ctx.now)
    | _ => false
  | .OnlyWithin p =>
    match p with
    | .Range s e => decide (s ≤ ctx.now) && decide (ctx.now ≤ e)
    | _ => false
  | .OnlyFor d =>
    match ctx.createdAt with
    | some c => decide (ctx.now ≤ c + i64OfU64 d)
    | none => false

/-- The per-kind failure reason of `Policy::evaluate`
(`src/eval.rs` lines 105-110). -/
def failReason : Hook → String
  | .OnlyBefore _ => "Expired (After allowed time)"
  | .OnlyAfter _ => "NotYetValid (Before allowed time)"
  | .OnlyWithin _ => "Outside allowed window"
  | .OnlyFor _ => "Expired (Duration elapsed)"

/-- The verdict returned when a hook fails
(`src/eval.rs` lines 115-119). -/
def failVerdict : Hook → Verdict
  | .OnlyBefore _ => .Expired
  | .OnlyFor _ => .Expired
  | .OnlyAfter _ => .NotYetValid
  | h => .PolicyViolation (failReason h)

/-- The hook-walking loop of `Policy::evaluate` (`src/eval.rs` lines
71-135): `i` is the index of the first hook of the remaining list,
`matched` and `details` the accumulators built so far. -/
def walkHooks (ctx : EvaluationContext) (i : Nat) (matched : List Nat)
    (details : List (String × String)) : List Hook → PolicyEvaluation
  | [] => ⟨.Accept, matched, details⟩
  | h :: rest =>
    if hookPasses ctx h then
      walkHooks ctx (i + 1) (matched ++ [i]) details rest
    else
      ⟨failVerdict h, matched,
        mapInsert (mapInsert details "failed_hook_index" (toString i))
          "reason" (failReason h)⟩

/-- `Policy::evaluate` (`src/eval.rs` lines 41-136). -/
def Policy.evaluate (p : Policy) (ctx : EvaluationContext) : PolicyEvaluation :=
  if p.singleUse && decide (0 < ctx.usageCount) then
    ⟨.Reject, [], mapInsert [] "reason" "Single use policy violation"⟩
  else
    match p.maxAttempts with
    | some max =>
      if decide (max ≤ ctx.usageCount) then
        ⟨.Reject, [], mapInsert [] "reason" "Max attempts exceeded"⟩
      else
        walkHooks ctx 0 [] [] p.hooks
    | none => walkHooks ctx 0 [] [] p.hooks

example :
    (Policy.evaluate
      ⟨"p", [.OnlyBefore (.Instant 100), .OnlyAfter (.Instant 0)], none, 60,
        none, false, 1⟩
      ⟨50, none, none, 0⟩).verdict = .Accept := by decide

example :
    (Policy.evaluate
      ⟨"p", [.OnlyBefore (.Instant 100), .OnlyAfter (.Instant 0)], none, 60,
        none, false, 1⟩
      ⟨150, none, none, 0⟩).verdict = .Expired := by decide

example :
    (Policy.evaluate
      ⟨"p", [.OnlyFor 3600], none, 60, none, false, 1⟩
      ⟨1800, some 0, none, 0⟩).verdict = .Accept := by decide

example :
    (Policy.evaluate
      ⟨"p", [.OnlyFor 3600], none, 60, none, false, 1⟩
      ⟨5400, some 0, none, 0⟩).verdict = .Expired := by decide

example :
    (Policy.evaluate
      ⟨"p", [.OnlyFor 3600], none, 60, none, false, 1⟩
      ⟨0, none, none, 0⟩).verdict = .Expired := by decide

example :
    alistGet
      (Policy.evaluate ⟨"p", [], none, 60, none, true, 1⟩
        ⟨0, none, none, 1⟩).details "reason" =
      some "Single use policy violation" := by decide

/-! ### Lemmas about the hook walk -/

lemma walkHooks_all_pass (ctx : EvaluationContext) :
    ∀ (hooks : List Hook) (i : Nat) (matched : List Nat)
      (details : List (String × String)),
      (∀ h ∈ hooks, hookPasses ctx h = true) →
      walkHooks ctx i matched details hooks =
        ⟨.Accept, matched ++ List.range' i hooks.length, details⟩ := by
  intro hooks
  induction hooks with
  | nil => intro i matched details _; simp [walkHooks]
  | cons h rest ih =>
    intro i matched details hall
    have hh : hookPasses ctx h = true := hall h (by simp)
    rw [walkHooks, if_pos hh, ih (i + 1) (matched ++ [i]) details
      (fun x hx => hall x (List.mem_cons_of_mem h hx))]
    simp [List.range'_succ]

lemma walkHooks_first_fail (ctx : EvaluationContext) :
    ∀ (pre : List Hook) (h : Hook) (post : List Hook) (i : Nat)
      (matched : List Nat) (details : List (String × String)),
      (∀ x ∈ pre, hookPasses ctx x = true) → hookPasses ctx h = false →
      walkHooks ctx i matched details (pre ++ h :: post) =
        ⟨failVerdict h, matched ++ List.range' i pre.length,
          mapInsert
            (mapInsert details "failed_hook_index" (toString (i + pre.length)))
            "reason" (failReason h)⟩ := by
  intro pre
  induction pre with
  | nil =>
    intro h post i matched details _ hfail
    rw [List.nil_append, walkHooks, if_neg (by simp [hfail])]
    simp
  | cons a pre' ih =>
    intro h post i matched details hall hfail
    have ha : hookPasses ctx a = true := hall a (by simp)
    rw [List.cons_append, walkHooks, if_pos ha,
      ih h post (i + 1) (matched ++ [i]) details
        (fun x hx => hall x (List.mem_cons_of_mem a hx)) hfail]
    have harith : i + 1 + pre'.length = i + (pre'.length + 1) := by omega
    simp [List.range'_succ, harith]

lemma walkHooks_not_accept (ctx : EvaluationContext) :
    ∀ (hooks : List Hook) (i : Nat) (matched : List Nat)
      (details : List (String × String)),
      (∃ h ∈ hooks, hookPasses ctx h = false) →
      (walkHooks ctx i matched details hooks).verdict ≠ .Accept := by
  intro hooks
  induction hooks with
  | nil => intro i matched details hex; simp at hex
  | cons h rest ih =>
    intro i matched details hex
    by_cases hh : hookPasses ctx h = true
    · rw [walkHooks, if_pos hh]
      apply ih
      rcases hex with ⟨x, hx, hfx⟩
      rcases List.mem_cons.mp hx with rfl | hx'
      · rw [hh] at hfx; cases hfx
      · exact ⟨x, hx', hfx⟩
    · rw [walkHooks, if_neg hh]
      cases h <;> simp [failVerdict]

/-- If the single-use and max-attempts gates both pass, `evaluate` is the
hook walk started on empty accumulators. -/
lemma evaluate_eq_walk (p : Policy) (ctx : EvaluationContext)
    (h1 : ¬(p.singleUse = true ∧ 0 < ctx.usageCount))
    (h2 : ∀ m, p.maxAttempts = some m → ctx.usageCount < m) :
    p.evaluate ctx = walkHooks ctx 0 [] [] p.hooks := by
  have hb : (p.singleUse && decide (0 < ctx.usageCount)) = false := by
    cases hs : p.singleUse with
    | false => simp
    | true =>
      simp only [Bool.true_and, decide_eq_false_iff_not]
      exact fun hc => h1 ⟨hs, hc⟩
  rw [Policy.evaluate, hb]
  simp only [Bool.false_eq_true, if_false]
  cases hm : p.maxAttempts with
  | none => rfl
  | some m =>
    have hlt : ¬ m ≤ ctx.usageCount := by have := h2 m hm; omega
    simp [hlt]

/-- C3: with the usage gates passed, `evaluate` walks the hooks in
declared order under AND semantics: if every hook passes the verdict is
`Accept` with all indices matched (in order); otherwise it stops at the
first failing hook, the verdict is that hook's failure verdict
(`OnlyBefore`/`OnlyFor` → `Expired`, `OnlyAfter` → `NotYetValid`,
`OnlyWithin` → `PolicyViolation`), and `matchedHooks` holds exactly the
indices strictly before the failing one. -/
theorem c3_hook_walk_semantics (p : Policy) (ctx : EvaluationContext)
    (h1 : ¬(p.singleUse = true ∧ 0 < ctx.usageCount))
    (h2 : ∀ m, p.maxAttempts = some m → ctx.usageCount < m) :
    ((∀ h ∈ p.hooks, hookPasses ctx h = true) →
      p.evaluate ctx = ⟨.Accept, List.range p.hooks.length, []⟩) ∧
    (∀ i, (hi : i < p.hooks.length) →
      hookPasses ctx (p.hooks.get ⟨i, hi⟩) = false →
      (∀ j, (hj : j < i) →
        hookPasses ctx (p.hooks.get ⟨j, Nat.lt_trans hj hi⟩) = true) →
      (p.evaluate ctx).verdict = failVerdict (p.hooks.get ⟨i, hi⟩) ∧
      (p.evaluate ctx).matchedHooks = List.range i) := by
  rw [evaluate_eq_walk p ctx h1 h2]
  constructor
  · intro hall
    rw [walkHooks_all_pass ctx p.hooks 0 [] [] hall]
    simp [List.range_eq_range']
  · intro i hi hfail hpre
    have hsplit : p.hooks = p.hooks.take i ++ p.hooks.get ⟨i, hi⟩ ::
        p.hooks.drop (i + 1) := by
      conv_lhs => rw [← List.take_append_drop i p.hooks]
      rw [List.drop_eq_getElem_cons hi]
      rfl
    have hlen : (p.hooks.take i).length = i := by simp; omega
    have hpre' : ∀ x ∈ p.hooks.take i, hookPasses ctx x = true := by
      intro x hx
      rcases List.mem_iff_getElem.mp hx with ⟨j, hj, hgx⟩
      have hji : j < i := by simpa [hlen] using hj
      have : (p.hooks.take i)[j] = p.hooks.get ⟨j, Nat.lt_trans hji hi⟩ :=
        List.getElem_take ..
      rw [this] at hgx
      subst hgx
      exact hpre j hji
    have hwalk : walkHooks ctx 0 [] [] p.hooks =
        ⟨failVerdict (p.hooks.get ⟨i, hi⟩),
          [] ++ List.range' 0 (p.hooks.take i).length,
          mapInsert
            (mapInsert [] "failed_hook_index"
              (toString (0 + (p.hooks.take i).length)))
            "reason" (failReason (p.hooks.get ⟨i, hi⟩))⟩ := by
      conv_lhs => rw [hsplit]
      exact walkHooks_first_fail ctx (p.hooks.take i) (p.hooks.get ⟨i, hi⟩)
        (p.hooks.drop (i + 1)) 0 [] [] hpre' hfail
    rw [hwalk]
    simp [hlen, List.range_eq_range']

/-- Witness for C3 at a concrete policy and context: the second hook
(`OnlyBefore (Instant 10)`) is the first failing hook at `now = 20`, so
the verdict is `Expired` and only index 0 is matched. -/
theorem c3_hook_walk_semantics_witness :
    (Policy.evaluate
      ⟨"p", [Hook.OnlyAfter (Period.Instant 0),
             Hook.OnlyBefore (Period.Instant 10)], none, 60, none, false, 1⟩
      ⟨20, none, none, 0⟩).verdict = Verdict.Expired ∧
    (Policy.evaluate
      ⟨"p", [Hook.OnlyAfter (Period.Instant 0),
             Hook.OnlyBefore (Period.Instant 10)], none, 60, none, false, 1⟩
      ⟨20, none, none, 0⟩).matchedHooks = [0] := by
  have h := (c3_hook_walk_semantics
    ⟨"p", [Hook.OnlyAfter (Period.Instant 0),
           Hook.OnlyBefore (Period.Instant 10)], none, 60, none, false, 1⟩
    ⟨20, none, none, 0⟩ (by decide) (fun m hm => nomatch hm)).2
  have h1 := h 1 (by decide)
  have h2 := h1 (by decide)
    (fun j hj => by
      have hj0 : j = 0 := by omega
      subst hj0
      show hookPasses ⟨20, none, none, 0⟩ (Hook.OnlyAfter (Period.Instant 0)) =
        true
      decide)
  exact ⟨by rw [h2.1]; decide, by rw [h2.2]; decide⟩

/-- C4 counterexample: the code's single-use rejection reason is
`"Single use policy violation"` (capitalised), not the claimed
`"single use policy violation"`: at a single-use policy and a context
with `usageCount = 1` the verdict is `Reject` but the stored reason is
not the claimed string. -/
theorem c4_counterexample :
    (Policy.evaluate ⟨"p", [], none, 60, none, true, 1⟩
      ⟨0, none, none, 1⟩).verdict = Verdict.Reject ∧
    alistGet (Policy.evaluate ⟨"p", [], none, 60, none, true, 1⟩
      ⟨0, none, none, 1⟩).details "reason" ≠
      some "single use policy violation" := by
  constructor
  · decide
  · decide

/-- C4 (amended: the reason strings are capitalised,
`"Single use policy violation"` and `"Max attempts exceeded"`):
`evaluate` checks the usage gates before any hook, single-use first:
if `singleUse` and `usageCount > 0` it rejects with the single-use
reason regardless of the hooks; otherwise if `maxAttempts` is set and
`usageCount >= maxAttempts` it rejects with the max-attempts reason;
otherwise evaluation proceeds to the hook walk. -/
theorem c4_usage_gates (p : Policy) (ctx : EvaluationContext) :
    (p.singleUse = true → 0 < ctx.usageCount →
      p.evaluate ctx =
        ⟨.Reject, [], [("reason", "Single use policy violation")]⟩) ∧
    (¬(p.singleUse = true ∧ 0 < ctx.usageCount) →
      ∀ m, p.maxAttempts = some m → m ≤ ctx.usageCount →
      p.evaluate ctx =
        ⟨.Reject, [], [("reason", "Max attempts exceeded")]⟩) ∧
    (¬(p.singleUse = true ∧ 0 < ctx.usageCount) →
      (∀ m, p.maxAttempts = some m → ctx.usageCount < m) →
      p.evaluate ctx = walkHooks ctx 0 [] [] p.hooks) := by
  refine ⟨?_, ?_, ?_⟩
  · intro hs hc
    rw [Policy.evaluate, if_pos (by simp [hs, hc])]
    rfl
  · intro hg m hm hle
    have hb : (p.singleUse && decide (0 < ctx.usageCount)) = false := by
      cases hs : p.singleUse with
      | false => simp
      | true =>
        simp only [Bool.true_and, decide_eq_false_iff_not]
        exact fun hc => hg ⟨hs, hc⟩
    rw [Policy.evaluate, hb]
    simp only [Bool.false_eq_true, if_false, hm]
    rw [if_pos (by simpa using hle)]
    rfl
  · exact fun hg h2 => evaluate_eq_walk p ctx hg h2

/-- Witness for C4 at concrete inputs: the single-use gate fires at
`usageCount = 1`, the max-attempts gate fires at `usageCount = 3` with
`maxAttempts = 3`, and with both gates clear evaluation reaches the
hook walk. -/
theorem c4_usage_gates_witness :
    Policy.evaluate ⟨"a", [], none, 60, none, true, 1⟩ ⟨0, none, none, 1⟩ =
      ⟨.Reject, [], [("reason", "Single use policy violation")]⟩ ∧
    Policy.evaluate ⟨"b", [], none, 60, some 3, false, 1⟩ ⟨0, none, none, 3⟩ =
      ⟨.Reject, [], [("reason", "Max attempts exceeded")]⟩ ∧
    Policy.evaluate ⟨"c", [], none, 60, some 3, false, 1⟩ ⟨0, none, none, 2⟩ =
      walkHooks ⟨0, none, none, 2⟩ 0 [] [] [] := by
  refine ⟨?_, ?_, ?_⟩
  · exact (c4_usage_gates ⟨"a", [], none, 60, none, true, 1⟩
      ⟨0, none, none, 1⟩).1 rfl (by decide)
  · exact (c4_usage_gates ⟨"b", [], none, 60, some 3, false, 1⟩
      ⟨0, none, none, 3⟩).2.1 (by decide) 3 rfl (by decide)
  · exact (c4_usage_gates ⟨"c", [], none, 60, some 3, false, 1⟩
      ⟨0, none, none, 2⟩).2.2 (by decide)
      (fun m hm => by
        injection (show some (3 : Nat) = some m from hm) with h
        subst h
        decide)

/-- `evaluate` either rejects at a usage gate or runs the hook walk. -/
lemma evaluate_verdict_cases (p : Policy) (ctx : EvaluationContext) :
    (p.evaluate ctx).verdict = .Reject ∨
    p.evaluate ctx = walkHooks ctx 0 [] [] p.hooks := by
  rw [Policy.evaluate]
  by_cases hb : (p.singleUse && decide (0 < ctx.usageCount)) = true
  · rw [if_pos hb]; exact Or.inl rfl
  · rw [if_neg hb]
    cases hm : p.maxAttempts with
    | none => exact Or.inr rfl
    | some m =>
      by_cases hle : m ≤ ctx.usageCount
      · left; simp [hle]
      · right; simp [hle]

/-- C5: an `OnlyFor(durationSeconds)` hook passes iff the context has a
creation anchor and `now ≤ createdAt + duration`; with `createdAt`
absent it fails closed, and any policy containing such a hook can then
never produce an `Accept` verdict (evaluation is a total function, so it
cannot crash). -/
theorem c5_only_for_anchoring (ctx : EvaluationContext) (d : Nat)
    (hd : d < 9223372036854775808) :
    (hookPasses ctx (.OnlyFor d) = true ↔
      ∃ c, ctx.createdAt = some c ∧ ctx.now ≤ c + (d : Int)) ∧
    (ctx.createdAt = none → hookPasses ctx (.OnlyFor d) = false) ∧
    (ctx.createdAt = none → ∀ p : Policy, Hook.OnlyFor d ∈ p.hooks →
      (p.evaluate ctx).verdict ≠ .Accept) := by
  have hcast : i64OfU64 d = (d : Int) := by rw [i64OfU64, if_pos hd]
  refine ⟨?_, ?_, ?_⟩
  · cases hc : ctx.createdAt with
    | none => simp [hookPasses, hc]
    | some c => simp [hookPasses, hc, hcast]
  · intro hc; simp [hookPasses, hc]
  · intro hc p hmem
    have hfail : hookPasses ctx (.OnlyFor d) = false := by
      simp [hookPasses, hc]
    rcases evaluate_verdict_cases p ctx with hr | hw
    · rw [hr]; decide
    · rw [hw]
      exact walkHooks_not_accept ctx p.hooks 0 [] [] ⟨.OnlyFor d, hmem, hfail⟩

/-- Witness for C5 at concrete inputs: with `createdAt = 0` and
`duration = 50` the hook passes at `now = 40`; with `createdAt` absent
it fails, and a policy carrying it cannot accept. -/
theorem c5_only_for_anchoring_witness :
    hookPasses ⟨40, some 0, none, 0⟩ (.OnlyFor 50) = true ∧
    hookPasses ⟨40, none, none, 0⟩ (.OnlyFor 50) = false ∧
    (Policy.evaluate ⟨"p", [Hook.OnlyFor 50], none, 60, none, false, 1⟩
      ⟨40, none, none, 0⟩).verdict ≠ .Accept := by
  refine ⟨?_, ?_, ?_⟩
  · exact (c5_only_for_anchoring ⟨40, some 0, none, 0⟩ 50
      (by norm_num)).1.mpr ⟨0, rfl, by norm_num⟩
  · exact (c5_only_for_anchoring ⟨40, none, none, 0⟩ 50
      (by norm_num)).2.1 rfl
  · exact (c5_only_for_anchoring ⟨40, none, none, 0⟩ 50
      (by norm_num)).2.2 rfl
      ⟨"p", [Hook.OnlyFor 50], none, 60, none, false, 1⟩ (by decide)

/-! ### Error type (`src/error.rs`) and store data model (`src/store.rs`) -/

/-- `Error` from `src/error.rs`; wrapped foreign errors carry their
message text. -/
inductive Error where
  | Io (msg : String)
  | Serialization (msg : String)
  | Json (msg : String)
  | Toml (msg : String)
  | Crypto (msg : String)
  | AuthFailed
  | PolicyViolation (msg : String)
  | NotFound (id : String)
  | InvalidPeriod (msg : String)
  | Store (msg : String)
deriving DecidableEq, Repr

/-- `SecretType` from `src/store.rs`. -/
inductive SecretType where
  | Password
  | Key
  | Token
deriving DecidableEq, Repr

/-- `CredentialSecret` from `src/store.rs`. -/
structure CredentialSecret where
  type_ : SecretType
  data : Bytes
deriving DecidableEq, Repr

/-- `Credential` from `src/store.rs` (`usage_counter` is a `u64`). -/
structure Credential where
  id : String
  label : String
  tags : List String
  createdAt : Int
  updatedAt : Int
  policyId : Option String
  secret : CredentialSecret
  usageCounter : Nat
deriving DecidableEq, Repr

/-- `StoreHeader` from `src/store.rs`. -/
structure StoreHeader where
  version : Nat
  salt : Bytes
deriving DecidableEq, Repr

/-- `StorePayload` from `src/store.rs`; the two `HashMap`s are
association lists. -/
structure StorePayload where
  credentials : List (String × Credential)
  policies : List (String × Policy)
deriving DecidableEq, Repr

/-- `SecretStore` from `src/store.rs`. -/
structure SecretStore where
  path : String
  masterKey : Bytes
  salt : Bytes
  credentials : List (String × Credential)
  policies : List (String × Policy)
deriving DecidableEq, Repr

/-! ### External crates, modelled as parameters

`argon2`, `bincode` and `chacha20poly1305` are outside this repository;
theorems assume their documented contracts (determinism, round-trips,
AEAD decrypt-of-encrypt) only at the concrete values where the store
invokes them. -/

/-- The external crate functions the SDK calls: `argon2` maps a
passphrase and the ASCII bytes of a B64 salt string to the derived key
bytes; `ser`/`deser` are `bincode::serialize`/`deserialize`; `aeadEnc`
and `aeadDec` are the `XChaCha20Poly1305` payload operations, taking
key, nonce, message/ciphertext and associated data. -/
structure Externals where
  argon2 : Bytes → Bytes → Bytes
  serHeader : StoreHeader → Bytes
  deserHeader : Bytes → Option StoreHeader
  serPayload : StorePayload → Bytes
  deserPayload : Bytes → Option StorePayload
  aeadEnc : Bytes → Bytes → Bytes → Bytes → Bytes
  aeadDec : Bytes → Bytes → Bytes → Bytes → Option Bytes

/-! ### The B64 salt-string encoding used by `SaltString`
(`password_hash` crate): standard alphabet, unpadded. -/

/-- The character (as a byte) for one 6-bit group of the standard
base64 alphabet. -/
def b64Char (n : Nat) : Nat :=
  if n < 26 then 65 + n
  else if n < 52 then 97 + (n - 26)
  else if n < 62 then 48 + (n - 52)
  else if n = 62 then 43
  else 47

/-- Membership in the standard base64 alphabet. -/
def isB64Char (c : Nat) : Bool :=
  (65 ≤ c && c ≤ 90) || (97 ≤ c && c ≤ 122) || (48 ≤ c && c ≤ 57) ||
    c == 43 || c == 47

/-- Unpadded base64 of a byte string (the text form `SaltString` keeps
and `Salt::from_b64` accepts). -/
def b64Encode : Bytes → Bytes
  | [] => []
  | [a] => [b64Char (a / 4 % 64), b64Char (a % 4 * 16)]
  | [a, b] =>
    [b64Char (a / 4 % 64), b64Char (a % 4 * 16 + b / 16 % 16),
     b64Char (b % 16 * 4)]
  | a :: b :: c :: rest =>
    b64Char (a / 4 % 64) :: b64Char (a % 4 * 16 + b / 16 % 16) ::
    b64Char (b % 16 * 4 + c / 64 % 4) :: b64Char (c % 64) :: b64Encode rest

lemma b64Char_mem (n : Nat) : isB64Char (b64Char n) = true := by
  rw [b64Char]
  split_ifs <;> simp [isB64Char] <;> omega

lemma isB64Char_lt_128 {c : Nat} (h : isB64Char c = true) : c < 128 := by
  simp [isB64Char] at h
  omega

lemma chunk3_induction_aux (P : Bytes → Prop) (h0 : P []) (h1 : ∀ a, P [a])
    (h2 : ∀ a b, P [a, b])
    (h3 : ∀ a b c rest, P rest → P (a :: b :: c :: rest)) :
    ∀ (n : Nat) (l : Bytes), l.length ≤ n → P l := by
  intro n
  induction n with
  | zero =>
    intro l hl
    match l with
    | [] => exact h0
    | x :: xs => simp at hl
  | succ n ih =>
    intro l hl
    match l with
    | [] => exact h0
    | [a] => exact h1 a
    | [a, b] => exact h2 a b
    | a :: b :: c :: rest =>
      exact h3 a b c rest (ih rest (by simp at hl; omega))

/-- Induction along the 3-byte chunking of `b64Encode`. -/
lemma chunk3_induction (P : Bytes → Prop) (h0 : P []) (h1 : ∀ a, P [a])
    (h2 : ∀ a b, P [a, b])
    (h3 : ∀ a b c rest, P rest → P (a :: b :: c :: rest)) (l : Bytes) :
    P l :=
  chunk3_induction_aux P h0 h1 h2 h3 l.length l (Nat.le_refl _)

lemma b64Encode_all_b64 (l : Bytes) : (b64Encode l).all isB64Char = true := by
  induction l using chunk3_induction with
  | h0 => rfl
  | h1 a => simp [b64Encode, b64Char_mem]
  | h2 a b => simp [b64Encode, b64Char_mem]
  | h3 a b c rest ih => simp [b64Encode, b64Char_mem, ih]

lemma b64Encode_length (l : Bytes) :
    (b64Encode l).length =
      4 * (l.length / 3) +
        (if l.length % 3 = 0 then 0 else l.length % 3 + 1) := by
  induction l using chunk3_induction with
  | h0 => simp [b64Encode]
  | h1 a => simp [b64Encode]
  | h2 a b => simp [b64Encode]
  | h3 a b c rest ih =>
    simp only [b64Encode, List.length_cons, ih]
    have hm : (rest.length + 1 + 1 + 1) % 3 = rest.length % 3 := by omega
    have hd : (rest.length + 1 + 1 + 1) / 3 = rest.length / 3 + 1 := by omega
    rw [hm, hd]
    by_cases hz : rest.length % 3 = 0 <;> simp [hz] <;> omega

/-! ### Key derivation and AEAD framing (`src/crypto.rs`) -/

/-- `SaltString::from_b64`: the string must be 4 to 64 characters of
the base64 alphabet (the bytes are kept as-is; `SaltString` stores the
text form). -/
def saltFromB64 (s : Bytes) : Option Bytes :=
  if 4 ≤ s.length ∧ s.length ≤ 64 ∧ s.all isB64Char = true then some s
  else none

/-- `MasterKey::derive_from_passphrase` (`src/crypto.rs` lines 50-87).
`rnd` stands for the 16 random bytes `SaltString::generate` draws from
`OsRng` when no salt is supplied.  The returned salt is
`salt.as_str().as_bytes()`: the ASCII bytes of the B64 text.  The
`str::from_utf8` check is modelled as all bytes below 0x80 (every
B64-valid salt is ASCII; a multi-byte UTF-8 salt would fail
`from_b64` anyway, yielding the same `Err` outcome). -/
def deriveFromPassphrase (E : Externals) (pass : Bytes)
    (saltOpt : Option Bytes) (rnd : Bytes) : Except Error (Bytes × Bytes) :=
  match saltOpt with
  | some s =>
    if s.all (fun c => decide (c < 128)) = true then
      match saltFromB64 s with
      | some salt => .ok (E.argon2 pass salt, salt)
      | none => .error (.Crypto "invalid salt")
    else .error (.Crypto "Invalid salt utf8")
  | none =>
    let salt := b64Encode rnd
    .ok (E.argon2 pass salt, salt)

/-- `MasterKey::encrypt` (`src/crypto.rs` lines 89-112): `nonce` stands
for the 24 random bytes drawn from `OsRng`; the result is
`nonce || ciphertext`. -/
def MasterKey.encrypt (E : Externals) (key nonce plaintext ad : Bytes) :
    Except Error Bytes :=
  if key.length = 32 then .ok (nonce ++ E.aeadEnc key nonce plaintext ad)
  else .error (.Crypto "Invalid key length")

/-- `MasterKey::decrypt` (`src/crypto.rs` lines 114-133): reject blobs
shorter than the 24-byte nonce, split nonce and ciphertext, and map any
AEAD verification failure to the one generic error. -/
def MasterKey.decrypt (E : Externals) (key blob ad : Bytes) :
    Except Error Bytes :=
  if blob.length < 24 then .error (.Crypto "Ciphertext too short")
  else
    if key.length = 32 then
      match E.aeadDec key (blob.take 24) (blob.drop 24) ad with
      | some m => .ok m
      | none => .error (.Crypto "Decryption failed")
    else .error (.Crypto "Invalid key length")

/-- C6: deriving a key without a caller-supplied salt uses a fresh
16-byte random salt, returns its 22-character B64 text as the salt
bytes together with the (32-byte) key, and feeding those returned bytes
back as the salt reproduces exactly the same key and salt. -/
theorem c6_derive_key_salt_roundtrip (E : Externals) (pass rnd : Bytes)
    (hlen : rnd.length = 16)
    (hk32 : (E.argon2 pass (b64Encode rnd)).length = 32) :
    ∃ key salt, deriveFromPassphrase E pass none rnd = .ok (key, salt) ∧
      salt = b64Encode rnd ∧ salt.length = 22 ∧ key.length = 32 ∧
      ∀ rnd2, deriveFromPassphrase E pass (some salt) rnd2 =
        .ok (key, salt) := by
  have hsl : (b64Encode rnd).length = 22 := by
    rw [b64Encode_length, hlen]
    norm_num
  have hb64 := b64Encode_all_b64 rnd
  refine ⟨E.argon2 pass (b64Encode rnd), b64Encode rnd, rfl, rfl, hsl, hk32,
    ?_⟩
  intro rnd2
  have h128 : (b64Encode rnd).all (fun c => decide (c < 128)) = true := by
    rw [List.all_eq_true] at hb64 ⊢
    intro c hc
    simpa using isB64Char_lt_128 (hb64 c hc)
  have hfrom : saltFromB64 (b64Encode rnd) = some (b64Encode rnd) := by
    rw [saltFromB64, if_pos ⟨by omega, by omega, hb64⟩]
  rw [deriveFromPassphrase, if_pos h128, hfrom]

/-- A concrete instance of the external crate functions, used to apply
the claim theorems at concrete inputs: a constant KDF, identity AEAD
(failing on one designated ciphertext), and constant serializers. -/
def ExtToy : Externals where
  argon2 := fun _ _ => List.replicate 32 0
  serHeader := fun _ => [7]
  deserHeader := fun _ => some ⟨1, [65, 65, 65, 65]⟩
  serPayload := fun _ => []
  deserPayload := fun _ => some ⟨[], []⟩
  aeadEnc := fun _ _ m _ => m
  aeadDec := fun _ _ ct _ => if ct = [9, 9, 9] then none else some ct

/-- Witness for C6 at a concrete passphrase and random salt bytes. -/
theorem c6_derive_key_salt_roundtrip_witness :
    ∃ key salt,
      deriveFromPassphrase ExtToy [108, 107] none (List.replicate 16 0) =
        .ok (key, salt) ∧
      salt = b64Encode (List.replicate 16 0) ∧ salt.length = 22 ∧
      key.length = 32 ∧
      ∀ rnd2, deriveFromPassphrase ExtToy [108, 107] (some salt) rnd2 =
        .ok (key, salt) :=
  c6_derive_key_salt_roundtrip ExtToy [108, 107] (List.replicate 16 0)
    (by decide) (by decide)

/-- C7: `decrypt` on a blob shorter than 24 bytes, or on a well-formed
blob whose AEAD tag does not verify (tampered ciphertext or wrong key),
never yields plaintext and fails with the one generic `Error::Crypto`
condition; every authentication failure produces the identical
`"Decryption failed"` value, so wrong key and tampering are
indistinguishable. -/
theorem c7_decrypt_fails_generic (E : Externals) (key blob ad : Bytes)
    (h : blob.length < 24 ∨
      (24 ≤ blob.length ∧ key.length = 32 ∧
        E.aeadDec key (blob.take 24) (blob.drop 24) ad = none)) :
    (∀ m, MasterKey.decrypt E key blob ad ≠ .ok m) ∧
    (∃ msg, MasterKey.decrypt E key blob ad = .error (.Crypto msg)) ∧
    (24 ≤ blob.length →
      MasterKey.decrypt E key blob ad =
        .error (.Crypto "Decryption failed")) := by
  rcases h with hshort | ⟨hlen, hk, hdec⟩
  · have hd : MasterKey.decrypt E key blob ad =
        .error (.Crypto "Ciphertext too short") := by
      rw [MasterKey.decrypt, if_pos hshort]
    refine ⟨fun m hm => ?_, ⟨"Ciphertext too short", hd⟩, fun hge => ?_⟩
    · rw [hd] at hm; cases hm
    · omega
  · have hd : MasterKey.decrypt E key blob ad =
        .error (.Crypto "Decryption failed") := by
      rw [MasterKey.decrypt, if_neg (by omega), if_pos hk, hdec]
    refine ⟨fun m hm => ?_, ⟨"Decryption failed", hd⟩, fun _ => hd⟩
    rw [hd] at hm; cases hm

/-- Witness for C7: a tampered 27-byte blob fails with the generic
error; a 2-byte (truncated) blob never decrypts. -/
theorem c7_decrypt_fails_generic_witness :
    MasterKey.decrypt ExtToy (List.replicate 32 0)
      (List.replicate 24 0 ++ [9, 9, 9]) [] =
      .error (.Crypto "Decryption failed") ∧
    (∀ m, MasterKey.decrypt ExtToy (List.replicate 32 0) [1, 2] [] ≠
      .ok m) := by
  constructor
  · exact (c7_decrypt_fails_generic ExtToy (List.replicate 32 0)
      (List.replicate 24 0 ++ [9, 9, 9]) []
      (Or.inr ⟨by decide, by decide, by decide⟩)).2.2 (by decide)
  · exact fun m => (c7_decrypt_fails_generic ExtToy (List.replicate 32 0)
      [1, 2] [] (Or.inl (by decide))).1 m

/-! ### The encrypted store container (`src/store.rs`) -/

/-- The filesystem: the bytes stored at each path.  `tempfile` plus
`persist` is an atomic replacement of the bytes at the target path. -/
def FS : Type := String → Option Bytes

/-- Atomically replace the file at `p` with bytes `b`. -/
def fsWrite (fs : FS) (p : String) (b : Bytes) : FS :=
  fun q => if q = p then some b else fs q

/-- `u32::to_le_bytes`. -/
def u32le (n : Nat) : Bytes :=
  [n % 256, n / 256 % 256, n / 65536 % 256, n / 16777216 % 256]

/-- `u32::from_le_bytes` on the first four bytes. -/
def leToNat : Bytes → Nat
  | a :: b :: c :: d :: _ => a + 256 * b + 65536 * c + 16777216 * d
  | _ => 0

lemma leToNat_u32le {n : Nat} (hn : n < 4294967296) :
    leToNat (u32le n) = n := by
  rw [u32le, leToNat]
  omega

/-- The byte image `SecretStore::save` produces (`src/store.rs` lines
133-161): length-prefixed header followed by the encrypted payload,
with the header bytes as associated data.  `nonce` stands for the
random nonce `encrypt` draws. -/
def SecretStore.saveBytes (E : Externals) (st : SecretStore)
    (nonce : Bytes) : Except Error Bytes :=
  let hb := E.serHeader ⟨1, st.salt⟩
  let pb := E.serPayload ⟨st.credentials, st.policies⟩
  match MasterKey.encrypt E st.masterKey nonce pb hb with
  | .ok ct => .ok (u32le hb.length ++ hb ++ ct)
  | .error e => .error e

/-- `SecretStore::save`: write the container image to a temp file and
atomically replace the store path. -/
def SecretStore.save (E : Externals) (st : SecretStore) (nonce : Bytes)
    (fs : FS) : Except Error Unit × FS :=
  match SecretStore.saveBytes E st nonce with
  | .ok b => (.ok (), fsWrite fs st.path b)
  | .error e => (.error e, fs)

/-- `SecretStore::open` (`src/store.rs` lines 94-131): read the file,
parse the length-prefixed header, re-derive the key from the passphrase
and stored salt, decrypt the remainder with the header bytes as
associated data, and populate the maps. -/
def SecretStore.openStore (E : Externals) (fs : FS) (path : String)
    (pass : Bytes) : Except Error SecretStore :=
  match fs path with
  | none => .error (.Io "No such file or directory")
  | some contents =>
    if contents.length < 4 then .error (.Io "File too short")
    else
      let headerLen := leToNat (contents.take 4)
      if contents.length < 4 + headerLen then .error (.Io "File truncated")
      else
        let hb := (contents.drop 4).take headerLen
        match E.deserHeader hb with
        | none => .error (.Serialization "header")
        | some header =>
          match deriveFromPassphrase E pass (some header.salt) [] with
          | .error e => .error e
          | .ok (mkey, _) =>
            match MasterKey.decrypt E mkey (contents.drop (4 + headerLen))
                hb with
            | .error e => .error e
            | .ok pb =>
              match E.deserPayload pb with
              | none => .error (.Serialization "payload")
              | some payload =>
                .ok ⟨path, mkey, header.salt, payload.credentials,
                  payload.policies⟩

/-- `SecretStore::init` (`src/store.rs` lines 79-92): derive a fresh
key and salt (`rnd` is the randomness `SaltString::generate` draws),
build an empty store, and `save()` it.  Note there is no check whether
a file already exists at `path`. -/
def SecretStore.init (E : Externals) (fs : FS) (path : String)
    (pass : Bytes) (rnd nonce : Bytes) : Except Error SecretStore × FS :=
  match deriveFromPassphrase E pass none rnd with
  | .error e => (.error e, fs)
  | .ok (mkey, salt) =>
    let st : SecretStore := ⟨path, mkey, salt, [], []⟩
    match SecretStore.save E st nonce fs with
    | (.ok _, fs') => (.ok st, fs')
    | (.error e, fs') => (.error e, fs')

/-- `SecretStore::get_credential` (`&self`: no mutation, no save). -/
def SecretStore.getCredential (st : SecretStore) (fs : FS) (id : String) :
    Option Credential × SecretStore × FS :=
  (alistGet st.credentials id, st, fs)

/-- `SecretStore::list_credentials` (`&self`: no mutation, no save). -/
def SecretStore.listCredentials (st : SecretStore) (fs : FS) :
    List Credential × SecretStore × FS :=
  (st.credentials.map (fun p => p.2), st, fs)

/-- `SecretStore::get_policy` (`&self`: no mutation, no save). -/
def SecretStore.getPolicy (st : SecretStore) (fs : FS) (id : String) :
    Option Policy × SecretStore × FS :=
  (alistGet st.policies id, st, fs)

/-- `SecretStore::list_policies` (`&self`: no mutation, no save). -/
def SecretStore.listPolicies (st : SecretStore) (fs : FS) :
    List Policy × SecretStore × FS :=
  (st.policies.map (fun p => p.2), st, fs)

/-- `SecretStore::remove_credential` (`src/store.rs` lines 197-203):
remove and save only if the id was present, otherwise `Ok(())` without
touching anything. -/
def SecretStore.removeCredential (E : Externals) (st : SecretStore)
    (fs : FS) (id : String) (nonce : Bytes) :
    Except Error Unit × SecretStore × FS :=
  if (alistGet st.credentials id).isSome then
    let st' : SecretStore :=
      { st with credentials := alistRemove st.credentials id }
    let res := SecretStore.save E st' nonce fs
    (res.1, st', res.2)
  else (.ok (), st, fs)

/-- `SecretStore::remove_policy` (`src/store.rs` lines 172-178). -/
def SecretStore.removePolicy (E : Externals) (st : SecretStore) (fs : FS)
    (id : String) (nonce : Bytes) : Except Error Unit × SecretStore × FS :=
  if (alistGet st.policies id).isSome then
    let st' : SecretStore := { st with policies := alistRemove st.policies id }
    let res := SecretStore.save E st' nonce fs
    (res.1, st', res.2)
  else (.ok (), st, fs)

/-- `SecretStore::increment_usage` (`src/store.rs` lines 205-213):
bump the counter and refresh `updated_at` (`now` stands for
`Utc::now()`), then save; absent ids give `Error::Store`. -/
def SecretStore.incrementUsage (E : Externals) (st : SecretStore) (fs : FS)
    (id : String) (now : Int) (nonce : Bytes) :
    Except Error Unit × SecretStore × FS :=
  match alistGet st.credentials id with
  | some _ =>
    let bump : Credential → Credential := fun c =>
      { c with usageCounter := c.usageCounter + 1, updatedAt := now }
    let st' : SecretStore :=
      { st with credentials := alistModify st.credentials id bump }
    let res := SecretStore.save E st' nonce fs
    (res.1, st', res.2)
  | none => (.error (.Store ("Credential " ++ id ++ " not found")), st, fs)

/-! ### C1: save/open round-trip -/

/-- C1: for a store whose master key is the one derived from passphrase
`pass` and the store's salt, `save()` succeeds and `open(path, pass)`
on the resulting file reproduces exactly the saved credential and
policy maps (and salt).  The hypotheses are the external crates'
contracts at the touched values: bincode round-trips for this header
and payload, AEAD decrypt-of-encrypt under this key/nonce/AAD, a
B64-valid salt, a 32-byte key, a 24-byte nonce, and a header short
enough for its `u32` length prefix. -/
theorem c1_save_open_roundtrip (E : Externals) (st : SecretStore)
    (pass nonce : Bytes)
    (hkey : st.masterKey = E.argon2 pass st.salt)
    (hklen : st.masterKey.length = 32)
    (hnonce : nonce.length = 24)
    (hsalt128 : st.salt.all (fun c => decide (c < 128)) = true)
    (hsaltb64 : saltFromB64 st.salt = some st.salt)
    (hhdr : E.deserHeader (E.serHeader ⟨1, st.salt⟩) = some ⟨1, st.salt⟩)
    (hhlen : (E.serHeader ⟨1, st.salt⟩).length < 4294967296)
    (hpayload : E.deserPayload (E.serPayload ⟨st.credentials, st.policies⟩) =
      some ⟨st.credentials, st.policies⟩)
    (haead : E.aeadDec st.masterKey nonce
        (E.aeadEnc st.masterKey nonce
          (E.serPayload ⟨st.credentials, st.policies⟩)
          (E.serHeader ⟨1, st.salt⟩))
        (E.serHeader ⟨1, st.salt⟩) =
      some (E.serPayload ⟨st.credentials, st.policies⟩))
    (fs : FS) :
    (SecretStore.save E st nonce fs).1 = .ok () ∧
    SecretStore.openStore E (SecretStore.save E st nonce fs).2 st.path pass =
      .ok ⟨st.path, st.masterKey, st.salt, st.credentials, st.policies⟩ := by
  generalize hhb : E.serHeader (⟨1, st.salt⟩ : StoreHeader) = hb at hhdr hhlen haead
  generalize hpb : E.serPayload (⟨st.credentials, st.policies⟩ : StorePayload) = pb at hpayload haead
  generalize hct : E.aeadEnc st.masterKey nonce pb hb = ct at haead
  have hbytes : SecretStore.saveBytes E st nonce =
      .ok (u32le hb.length ++ hb ++ (nonce ++ ct)) := by
    simp only [SecretStore.saveBytes, MasterKey.encrypt, hklen, hhb, hpb, hct,
      if_true]
  have hsave : SecretStore.save E st nonce fs =
      (.ok (), fsWrite fs st.path (u32le hb.length ++ hb ++ (nonce ++ ct))) := by
    simp only [SecretStore.save, hbytes]
  refine ⟨by rw [hsave], ?_⟩
  rw [hsave]
  have hcontent :
      fsWrite fs st.path (u32le hb.length ++ hb ++ (nonce ++ ct)) st.path =
        some (u32le hb.length ++ hb ++ (nonce ++ ct)) := by
    simp [fsWrite]
  have hlenB : (u32le hb.length ++ hb ++ (nonce ++ ct)).length =
      4 + hb.length + (24 + ct.length) := by
    simp [u32le, hnonce]
    omega
  have htake4 : (u32le hb.length ++ hb ++ (nonce ++ ct)).take 4 =
      u32le hb.length := by
    rw [List.append_assoc]
    exact List.take_left' (by simp [u32le])
  have hdrop4 : (u32le hb.length ++ hb ++ (nonce ++ ct)).drop 4 =
      hb ++ (nonce ++ ct) := by
    rw [List.append_assoc]
    exact List.drop_left' (by simp [u32le])
  have hdropHL : (u32le hb.length ++ hb ++ (nonce ++ ct)).drop
      (4 + hb.length) = nonce ++ ct :=
    List.drop_left' (by simp [u32le]; omega)
  simp only [SecretStore.openStore, hcontent]
  rw [if_neg (by omega), htake4, leToNat_u32le hhlen,
    if_neg (by omega), hdrop4, List.take_left' rfl, hhdr]
  simp only [deriveFromPassphrase]
  rw [if_pos hsalt128, hsaltb64]
  simp only [← hkey]
  rw [hdropHL]
  simp only [MasterKey.decrypt]
  rw [if_neg (by simp [hnonce]), if_pos hklen, List.take_left' hnonce,
    List.drop_left' hnonce, haead]
  simp only [hpayload]

/-- Witness for C1: the round-trip at a concrete empty store, with the
toy external instance standing in for argon2/bincode/XChaCha20. -/
theorem c1_save_open_roundtrip_witness :
    (SecretStore.save ExtToy
      ⟨"p", List.replicate 32 0, [65, 65, 65, 65], [], []⟩
      (List.replicate 24 0) (fun _ => none)).1 = .ok () ∧
    SecretStore.openStore ExtToy
      (SecretStore.save ExtToy
        ⟨"p", List.replicate 32 0, [65, 65, 65, 65], [], []⟩
        (List.replicate 24 0) (fun _ => none)).2 "p" [108, 107] =
      .ok ⟨"p", List.replicate 32 0, [65, 65, 65, 65], [], []⟩ :=
  c1_save_open_roundtrip ExtToy
    ⟨"p", List.replicate 32 0, [65, 65, 65, 65], [], []⟩ [108, 107]
    (List.replicate 24 0) (by decide) (by decide) (by decide) (by decide)
    (by decide) (by decide) (by decide) (by decide) (by decide)
    (fun _ => none)

/-! ### C2: init on an existing file -/

/-- C2 counterexample: `SecretStore::init` performs no existence check.
On a filesystem that already holds bytes `[1, 2, 3]` at path `"p"`,
`init` succeeds (no already-exists error) and replaces the existing
file. -/
theorem c2_counterexample :
    ((fun q => if q = "p" then some [1, 2, 3] else none : FS) "p" =
      some [1, 2, 3]) ∧
    (SecretStore.init ExtToy
      (fun q => if q = "p" then some [1, 2, 3] else none) "p" [108, 107]
      (List.replicate 16 0) (List.replicate 24 0)).1.isOk = true ∧
    (SecretStore.init ExtToy
      (fun q => if q = "p" then some [1, 2, 3] else none) "p" [108, 107]
      (List.replicate 16 0) (List.replicate 24 0)).2 "p" ≠
      some [1, 2, 3] := by
  refine ⟨by decide, by decide, by decide⟩

/-- C2 (amended: the SDK's `init` does not check for an existing file —
that guard lives only in the CLI wrapper): for every filesystem state,
including one that already holds a file at `path`, `init` derives a
fresh salt and key, succeeds with an empty store (no credentials, no
policies), and synchronously overwrites `path` with the new container
bytes. -/
theorem c2_init_overwrites (E : Externals) (fs : FS) (path : String)
    (pass rnd nonce : Bytes)
    (hk32 : (E.argon2 pass (b64Encode rnd)).length = 32) :
    ∃ b, SecretStore.saveBytes E
        ⟨path, E.argon2 pass (b64Encode rnd), b64Encode rnd, [], []⟩ nonce =
        .ok b ∧
      SecretStore.init E fs path pass rnd nonce =
        (.ok ⟨path, E.argon2 pass (b64Encode rnd), b64Encode rnd, [], []⟩,
          fsWrite fs path b) := by
  have hbytes : SecretStore.saveBytes E
      ⟨path, E.argon2 pass (b64Encode rnd), b64Encode rnd, [], []⟩ nonce =
      .ok (u32le (E.serHeader ⟨1, b64Encode rnd⟩).length ++
        E.serHeader ⟨1, b64Encode rnd⟩ ++
        (nonce ++ E.aeadEnc (E.argon2 pass (b64Encode rnd)) nonce
          (E.serPayload ⟨[], []⟩) (E.serHeader ⟨1, b64Encode rnd⟩))) := by
    simp only [SecretStore.saveBytes, MasterKey.encrypt, hk32, if_true]
  refine ⟨_, hbytes, ?_⟩
  simp only [SecretStore.init, deriveFromPassphrase, SecretStore.save, hbytes]

/-- Witness for C2's amended claim at a concrete filesystem that
already holds a file at the target path. -/
theorem c2_init_overwrites_witness :
    ∃ b, SecretStore.saveBytes ExtToy
        ⟨"p", ExtToy.argon2 [108, 107] (b64Encode (List.replicate 16 0)),
          b64Encode (List.replicate 16 0), [], []⟩ (List.replicate 24 0) =
        .ok b ∧
      SecretStore.init ExtToy
        (fun q => if q = "p" then some [1, 2, 3] else none) "p" [108, 107]
        (List.replicate 16 0) (List.replicate 24 0) =
        (.ok ⟨"p", ExtToy.argon2 [108, 107] (b64Encode (List.replicate 16 0)),
          b64Encode (List.replicate 16 0), [], []⟩,
         fsWrite (fun q => if q = "p" then some [1, 2, 3] else none) "p" b) :=
  c2_init_overwrites ExtToy
    (fun q => if q = "p" then some [1, 2, 3] else none) "p" [108, 107]
    (List.replicate 16 0) (List.replicate 24 0) (by decide)

/-! ### C8-C10: store mutators and queries -/

lemma alistGet_modify_self {α : Type} (m : List (String × α)) (k : String)
    (f : α → α) :
    alistGet (alistModify m k f) k = (alistGet m k).map f := by
  induction m with
  | nil => rfl
  | cons p rest ih =>
    by_cases hp : p.1 = k
    · simp [alistModify, alistGet, hp]
    · simp only [alistModify, alistGet, List.map_cons, if_neg hp] at ih ⊢
      rw [List.find?_cons_of_neg _ (by simp [hp]),
        List.find?_cons_of_neg _ (by simp [hp])]
      exact ih

lemma alistGet_modify_ne {α : Type} (m : List (String × α)) (k k' : String)
    (f : α → α) (hne : k' ≠ k) :
    alistGet (alistModify m k f) k' = alistGet m k' := by
  induction m with
  | nil => rfl
  | cons p rest ih =>
    by_cases hp : p.1 = k
    · have hp' : ¬ (p.1 = k') := by rw [hp]; exact fun h => hne h.symm
      simp only [alistModify, alistGet, List.map_cons, if_pos hp] at ih ⊢
      rw [List.find?_cons_of_neg _ (by simp; exact fun h => hne h.symm),
        List.find?_cons_of_neg _ (by simp [hp'])]
      exact ih
    · simp only [alistModify, alistGet, List.map_cons, if_neg hp] at ih ⊢
      by_cases hq : p.1 = k'
      · rw [List.find?_cons_of_pos _ (by simp [hq]),
          List.find?_cons_of_pos _ (by simp [hq])]
      · rw [List.find?_cons_of_neg _ (by simp [hq]),
          List.find?_cons_of_neg _ (by simp [hq])]
        exact ih

/-- C8: when the id is present, `incrementUsage` bumps exactly that
credential's usage counter by one and sets its update timestamp to the
current time, leaving every other credential, the policies, the salt,
the key and the path unchanged, and returns `Ok`; when the id is
absent it fails with the not-found condition and returns the store and
filesystem untouched. -/
theorem c8_increment_usage (E : Externals) (st : SecretStore) (fs : FS)
    (id : String) (now : Int) (nonce : Bytes)
    (hklen : st.masterKey.length = 32) :
    (∀ c, alistGet st.credentials id = some c →
      (SecretStore.incrementUsage E st fs id now nonce).1 = .ok () ∧
      alistGet
        (SecretStore.incrementUsage E st fs id now nonce).2.1.credentials
        id =
        some { c with usageCounter := c.usageCounter + 1,
                      updatedAt := now } ∧
      (∀ id2, id2 ≠ id →
        alistGet
          (SecretStore.incrementUsage E st fs id now nonce).2.1.credentials
          id2 = alistGet st.credentials id2) ∧
      (SecretStore.incrementUsage E st fs id now nonce).2.1.policies =
        st.policies ∧
      (SecretStore.incrementUsage E st fs id now nonce).2.1.salt = st.salt ∧
      (SecretStore.incrementUsage E st fs id now nonce).2.1.path = st.path ∧
      (SecretStore.incrementUsage E st fs id now nonce).2.1.masterKey =
        st.masterKey) ∧
    (alistGet st.credentials id = none →
      SecretStore.incrementUsage E st fs id now nonce =
        (.error (.Store ("Credential " ++ id ++ " not found")), st, fs)) := by
  constructor
  · intro c hc
    simp only [SecretStore.incrementUsage, hc]
    refine ⟨?_, ?_, ?_, trivial, trivial, trivial, trivial⟩
    · simp [SecretStore.save, SecretStore.saveBytes, MasterKey.encrypt, hklen]
    · rw [alistGet_modify_self, hc]
      rfl
    · intro id2 hne
      exact alistGet_modify_ne st.credentials id id2 _ hne
  · intro hc
    simp only [SecretStore.incrementUsage, hc]

/-- Witness for C8 at a one-credential store: usage goes 0 to 1 and the
timestamp becomes 5; an absent id gives the not-found error and leaves
everything unchanged. -/
theorem c8_increment_usage_witness :
    (SecretStore.incrementUsage ExtToy
      ⟨"p", List.replicate 32 0, [65, 65, 65, 65],
        [("id1", ⟨"id1", "l", [], 0, 0, none, ⟨.Password, [1]⟩, 0⟩)], []⟩
      (fun _ => none) "id1" 5 (List.replicate 24 0)).1 = .ok () ∧
    alistGet (SecretStore.incrementUsage ExtToy
      ⟨"p", List.replicate 32 0, [65, 65, 65, 65],
        [("id1", ⟨"id1", "l", [], 0, 0, none, ⟨.Password, [1]⟩, 0⟩)], []⟩
      (fun _ => none) "id1" 5 (List.replicate 24 0)).2.1.credentials "id1" =
      some ⟨"id1", "l", [], 0, 5, none, ⟨.Password, [1]⟩, 1⟩ ∧
    SecretStore.incrementUsage ExtToy
      ⟨"p", List.replicate 32 0, [65, 65, 65, 65],
        [("id1", ⟨"id1", "l", [], 0, 0, none, ⟨.Password, [1]⟩, 0⟩)], []⟩
      (fun _ => none) "zz" 5 (List.replicate 24 0) =
      (.error (.Store "Credential zz not found"),
        ⟨"p", List.replicate 32 0, [65, 65, 65, 65],
          [("id1", ⟨"id1", "l", [], 0, 0, none, ⟨.Password, [1]⟩, 0⟩)], []⟩,
        fun _ => none) := by
  refine ⟨?_, ?_, ?_⟩
  · exact ((c8_increment_usage ExtToy
      ⟨"p", List.replicate 32 0, [65, 65, 65, 65],
        [("id1", ⟨"id1", "l", [], 0, 0, none, ⟨.Password, [1]⟩, 0⟩)], []⟩
      (fun _ => none) "id1" 5 (List.replicate 24 0) (by decide)).1
      ⟨"id1", "l", [], 0, 0, none, ⟨.Password, [1]⟩, 0⟩ (by decide)).1
  · exact ((c8_increment_usage ExtToy
      ⟨"p", List.replicate 32 0, [65, 65, 65, 65],
        [("id1", ⟨"id1", "l", [], 0, 0, none, ⟨.Password, [1]⟩, 0⟩)], []⟩
      (fun _ => none) "id1" 5 (List.replicate 24 0) (by decide)).1
      ⟨"id1", "l", [], 0, 0, none, ⟨.Password, [1]⟩, 0⟩ (by decide)).2.1
  · exact (c8_increment_usage ExtToy
      ⟨"p", List.replicate 32 0, [65, 65, 65, 65],
        [("id1", ⟨"id1", "l", [], 0, 0, none, ⟨.Password, [1]⟩, 0⟩)], []⟩
      (fun _ => none) "zz" 5 (List.replicate 24 0) (by decide)).2 (by decide)

/-- C9: the four read-only queries return the store and the filesystem
exactly as they received them — no map entry, usage counter or
timestamp changes, and nothing is written to disk. -/
theorem c9_queries_pure (st : SecretStore) (fs : FS) (id : String) :
    (SecretStore.getCredential st fs id).2.1 = st ∧
    (SecretStore.getCredential st fs id).2.2 = fs ∧
    (SecretStore.listCredentials st fs).2.1 = st ∧
    (SecretStore.listCredentials st fs).2.2 = fs ∧
    (SecretStore.getPolicy st fs id).2.1 = st ∧
    (SecretStore.getPolicy st fs id).2.2 = fs ∧
    (SecretStore.listPolicies st fs).2.1 = st ∧
    (SecretStore.listPolicies st fs).2.2 = fs :=
  ⟨rfl, rfl, rfl, rfl, rfl, rfl, rfl, rfl⟩

/-- C10: removing an absent credential or policy id returns `Ok(())`
(not a not-found error) and leaves the in-memory maps and the
filesystem untouched — in particular `save` never runs. -/
theorem c10_remove_absent (E : Externals) (st : SecretStore) (fs : FS)
    (id : String) (nonce : Bytes) :
    (alistGet st.credentials id = none →
      SecretStore.removeCredential E st fs id nonce = (.ok (), st, fs)) ∧
    (alistGet st.policies id = none →
      SecretStore.removePolicy E st fs id nonce = (.ok (), st, fs)) := by
  constructor
  · intro h
    simp [SecretStore.removeCredential, h]
  · intro h
    simp [SecretStore.removePolicy, h]

/-- Witness for C10 at an empty store. -/
theorem c10_remove_absent_witness :
    SecretStore.removeCredential ExtToy
      ⟨"p", List.replicate 32 0, [65, 65, 65, 65], [], []⟩ (fun _ => none)
      "x" (List.replicate 24 0) =
      (.ok (), ⟨"p", List.replicate 32 0, [65, 65, 65, 65], [], []⟩,
        fun _ => none) ∧
    SecretStore.removePolicy ExtToy
      ⟨"p", List.replicate 32 0, [65, 65, 65, 65], [], []⟩ (fun _ => none)
      "x" (List.replicate 24 0) =
      (.ok (), ⟨"p", List.replicate 32 0, [65, 65, 65, 65], [], []⟩,
        fun _ => none) :=
  ⟨(c10_remove_absent ExtToy
      ⟨"p", List.replicate 32 0, [65, 65, 65, 65], [], []⟩ (fun _ => none)
      "x" (List.replicate 24 0)).1 rfl,
   (c10_remove_absent ExtToy
      ⟨"p", List.replicate 32 0, [65, 65, 65, 65], [], []⟩ (fun _ => none)
      "x" (List.replicate 24 0)).2 rfl⟩

end TimelyPass
